import Mathlib

/-!
Verification of the fetch-and-verify cache utility of the
geomagnetic-datacube-demo repository.  The source is the function
download_data and the descriptor dictionary data_nc in demo.ipynb;
download_data delegates the actual transfer to the external library call
pooch.retrieve, which is not part of the repository and is therefore
modelled from the specification.
-/

namespace GeomagDatacube

/-- A local filesystem path, as its list of segments; the source builds
paths with the / operator of pathlib. -/
abbrev Path := List String

/-- Raw file contents, as a list of bytes. -/
abbrev Bytes := List Nat

/-- Result of one network access to a URL: the full bytes served, an
interrupted (truncated) transfer, or an unreachable source. -/
inductive NetResult where
  | ok (bytes : Bytes)
  | interrupted
  | unreachable
deriving DecidableEq

/-- The error taxonomy of the fetch utility. -/
inductive FetchError where
  | NetworkError
  | IntegrityError
  | FilesystemError
deriving DecidableEq

/-- Local filesystem state: regular files with their contents, the
directories present, and the directories that are not writable. -/
structure FS where
  files : List (Path × Bytes)
  dirs : List Path
  roDirs : List Path
deriving DecidableEq

/-- Content of the regular file at p, if one is present. -/
def FS.lookup (fs : FS) (p : Path) : Option Bytes :=
  (fs.files.find? (fun e => e.1 = p)).map (fun e => e.2)

/-- The existence test full_path.exists() of the source: true when a
regular file or a directory is present at p. -/
def FS.pathExists (fs : FS) (p : Path) : Bool :=
  fs.files.any (fun e => e.1 = p) || fs.dirs.any (fun q => q = p)

/-- Write contents b at path p, replacing any previous file there (the
newest entry for a path shadows older ones; lookup reads the newest). -/
def FS.writeFile (fs : FS) (p : Path) (b : Bytes) : FS :=
  { fs with files := (p, b) :: fs.files }

/-- Delete the regular file at p, if any. -/
def FS.deleteFile (fs : FS) (p : Path) : FS :=
  { fs with files := fs.files.filter (fun e => e.1 ≠ p) }

/-- Create the directory p if it is missing; no change when present. -/
def FS.mkdir (fs : FS) (p : Path) : FS :=
  if p ∈ fs.dirs then fs else { fs with dirs := p :: fs.dirs }

/-- Modelled from the spec: the archive expansion done by the external
pooch.Unzip processor (not in the repository).  The members function
decodes the archive bytes into named member files; they are expanded
into the directory dest. -/
def extractArchive (members : Bytes → List (String × Bytes)) (fs : FS)
    (archive : Bytes) (dest : Path) : FS :=
  (members archive).foldl (fun a m => a.writeFile (dest ++ [m.1]) m.2)
    (fs.mkdir dest)

/-- Modelled from the spec: the external library call pooch.retrieve (not
in the repository).  It fails with FilesystemError when the target
directory is not writable, creates the target directory if missing,
streams the bytes from the URL while hashing them (an unreachable source
or an interrupted transfer is a NetworkError), fails with IntegrityError
on digest mismatch deleting the temporary file, and on match places the
verified bytes at path/fname, then runs the processor when one is given.
The result is the error if any, the filesystem afterwards, and the number
of network accesses performed. -/
def retrieve (hash : Bytes → String) (net : String → NetResult)
    (members : Bytes → List (String × Bytes)) (url known_hash : String)
    (path : Path) (fname : String) (processor : Option String) (fs : FS) :
    Option FetchError × FS × Nat :=
  if path ∈ fs.roDirs then (some .FilesystemError, fs, 0)
  else
    match net url with
    | .unreachable => (some .NetworkError, fs.mkdir path, 1)
    | .interrupted => (some .NetworkError, fs.mkdir path, 1)
    | .ok bytes =>
      if hash bytes = known_hash then
        match processor with
        | none => (none, (fs.mkdir path).writeFile (path ++ [fname]) bytes, 1)
        | some d =>
          (none,
            extractArchive members
              ((fs.mkdir path).writeFile (path ++ [fname]) bytes) bytes
              (path ++ [d]), 1)
      else (some .IntegrityError, fs.mkdir path, 1)

/-- The resource descriptor: the dictionary shape used by the source,
with keys path, fname, url and known_hash. -/
structure DataDescriptor where
  path : Path
  fname : String
  url : String
  known_hash : String
deriving DecidableEq

/-- The built-in descriptor data_nc of the source. -/
def data_nc : DataDescriptor where
  path := ["data"]
  fname := "SwA_20140501-20190501_proc1_shrunk.nc"
  url := "https://drive.google.com/uc?export=download&confirm=no_antivirus&id=1CQ6JVxx_R6tSGNbflTsPSFuxBZer0zkt"
  known_hash := "b8c805678031910a404a6ebab8d42ffc3179c1985d9c777be75158134c1e779f"

deriving instance DecidableEq for Except

/-- Observable outcome of one call to download_data: the returned path or
the raised error, the filesystem afterwards, the messages printed, and
the number of network accesses performed. -/
structure Outcome where
  res : Except FetchError Path
  fs : FS
  log : List String
  netCalls : Nat
deriving DecidableEq

/-- The function download_data of the source: compute
full_path = path / fname; when it already exists print a message and
return it at once; otherwise call pooch.retrieve (with file name
fname.zip and an Unzip processor expanding into fname when needs_unzip
is set), then return full_path. -/
def download_data (hash : Bytes → String) (net : String → NetResult)
    (members : Bytes → List (String × Bytes)) (fs : FS)
    (data : DataDescriptor := data_nc) (needs_unzip : Bool := false) :
    Outcome :=
  let full_path := data.path ++ [data.fname]
  if fs.pathExists full_path then
    { res := .ok full_path, fs := fs,
      log := ["Already found file: " ++ String.intercalate "/" full_path],
      netCalls := 0 }
  else
    match retrieve hash net members data.url data.known_hash data.path
        (if needs_unzip then data.fname ++ ".zip" else data.fname)
        (if needs_unzip then some data.fname else none) fs with
    | (some e, fs1, n) => { res := .error e, fs := fs1, log := [], netCalls := n }
    | (none, fs1, n) => { res := .ok full_path, fs := fs1, log := [], netCalls := n }

/-- A sample digest function for concrete runs: bytes [7] hash to "k",
anything else to "x". -/
def tHash : Bytes → String := fun b => if b = [7] then "k" else "x"

/-- A sample network serving the bytes [7] at every URL. -/
def tNetOk : String → NetResult := fun _ => NetResult.ok [7]

/-- A sample unavailable network. -/
def tNetDown : String → NetResult := fun _ => NetResult.unreachable

/-- A sample archive decoder: one member named a holding the archive
bytes themselves. -/
def tMembers : Bytes → List (String × Bytes) := fun b => [("a", b)]

/-- An empty filesystem. -/
def tFS : FS := ⟨[], [], []⟩

/-- A sample descriptor whose expected digest matches tHash [7]. -/
def tDesc : DataDescriptor := ⟨["d"], "f", "u", "k"⟩

/-- A sample descriptor whose expected digest matches no tHash value. -/
def tDescBad : DataDescriptor := ⟨["d"], "f", "u", "zz"⟩

/-- A filesystem already holding a (stale) file at the candidate path of
tDesc, with contents [9] whose tHash digest is not the expected one. -/
def tFSPre : FS := ⟨[(["d", "f"], [9])], [], []⟩

theorem append_singleton_ne (p : Path) (a : String) : p ++ [a] ≠ p := by
  intro h
  have h2 := congrArg List.length h
  simp at h2

theorem append_two_singleton_ne (p : Path) (a b c : String) :
    (p ++ [a]) ++ [b] ≠ p ++ [c] := by
  intro h
  have h2 := congrArg List.length h
  simp at h2

theorem FS.files_mkdir (fs : FS) (p : Path) : (fs.mkdir p).files = fs.files := by
  unfold FS.mkdir
  split <;> rfl

theorem FS.roDirs_mkdir (fs : FS) (p : Path) :
    (fs.mkdir p).roDirs = fs.roDirs := by
  unfold FS.mkdir
  split <;> rfl

theorem FS.mem_mkdir_self (fs : FS) (p : Path) : p ∈ (fs.mkdir p).dirs := by
  unfold FS.mkdir
  split
  · assumption
  · exact List.mem_cons_self _ _

theorem FS.lookup_mkdir (fs : FS) (p q : Path) :
    (fs.mkdir p).lookup q = fs.lookup q := by
  unfold FS.mkdir FS.lookup
  split <;> rfl

theorem FS.pathExists_mkdir_ne (fs : FS) (q p : Path) (h : p ≠ q) :
    (fs.mkdir q).pathExists p = fs.pathExists p := by
  unfold FS.mkdir FS.pathExists
  split
  · rfl
  · have h2 : q ≠ p := Ne.symm h
    simp [h2]

theorem FS.pathExists_of_mem_dirs (fs : FS) (p : Path) (h : p ∈ fs.dirs) :
    fs.pathExists p = true := by
  unfold FS.pathExists
  rw [Bool.or_eq_true]
  exact Or.inr (List.any_eq_true.mpr ⟨p, h, by simp⟩)

theorem FS.pathExists_writeFile_self (fs : FS) (p : Path) (b : Bytes) :
    (fs.writeFile p b).pathExists p = true := by
  simp [FS.writeFile, FS.pathExists]

theorem FS.lookup_writeFile_self (fs : FS) (p : Path) (b : Bytes) :
    (fs.writeFile p b).lookup p = some b := by
  simp [FS.writeFile, FS.lookup]

theorem FS.lookup_writeFile_ne (fs : FS) (p q : Path) (b : Bytes) (h : p ≠ q) :
    (fs.writeFile p b).lookup q = fs.lookup q := by
  simp [FS.writeFile, FS.lookup, List.find?_cons, h]

theorem FS.dirs_writeFile (fs : FS) (p : Path) (b : Bytes) :
    (fs.writeFile p b).dirs = fs.dirs := rfl

theorem FS.dirs_deleteFile (fs : FS) (p : Path) :
    (fs.deleteFile p).dirs = fs.dirs := rfl

theorem dirs_foldl_writeFile (l : List (String × Bytes)) (fs : FS)
    (dest : Path) :
    (l.foldl (fun a m => a.writeFile (dest ++ [m.1]) m.2) fs).dirs =
      fs.dirs := by
  induction l generalizing fs with
  | nil => rfl
  | cons m t ih =>
    rw [List.foldl_cons, ih]
    rfl

theorem lookup_foldl_writeFile_ne (l : List (String × Bytes)) (fs : FS)
    (dest q : Path) (h : ∀ m ∈ l, dest ++ [m.1] ≠ q) :
    (l.foldl (fun a m => a.writeFile (dest ++ [m.1]) m.2) fs).lookup q =
      fs.lookup q := by
  induction l generalizing fs with
  | nil => rfl
  | cons m t ih =>
    rw [List.foldl_cons, ih _ (fun m hm => h m (List.mem_cons_of_mem _ hm)),
      FS.lookup_writeFile_ne _ _ _ _ (h m (List.mem_cons_self _ _))]

theorem extractArchive_mem_dirs_dest (members : Bytes → List (String × Bytes))
    (fs : FS) (archive : Bytes) (dest : Path) :
    dest ∈ (extractArchive members fs archive dest).dirs := by
  unfold extractArchive
  rw [dirs_foldl_writeFile]
  exact FS.mem_mkdir_self fs dest

theorem extractArchive_pathExists_dest (members : Bytes → List (String × Bytes))
    (fs : FS) (archive : Bytes) (dest : Path) :
    (extractArchive members fs archive dest).pathExists dest = true :=
  FS.pathExists_of_mem_dirs _ _ (extractArchive_mem_dirs_dest members fs archive dest)

theorem retrieve_mismatch (hash : Bytes → String) (net : String → NetResult)
    (members : Bytes → List (String × Bytes)) (url kh : String) (path : Path)
    (fname : String) (proc : Option String) (fs : FS) (bytes : Bytes)
    (hro : path ∉ fs.roDirs) (hnet : net url = NetResult.ok bytes)
    (hhash : hash bytes ≠ kh) :
    retrieve hash net members url kh path fname proc fs =
      (some FetchError.IntegrityError, fs.mkdir path, 1) := by
  unfold retrieve
  rw [if_neg hro, hnet]
  simp [hhash]

theorem retrieve_none_shape_noproc (hash : Bytes → String)
    (net : String → NetResult) (members : Bytes → List (String × Bytes))
    (url kh : String) (path : Path) (fname : String) (fs fs1 : FS) (n : Nat)
    (h : retrieve hash net members url kh path fname none fs = (none, fs1, n)) :
    ∃ bytes, net url = NetResult.ok bytes ∧ hash bytes = kh ∧ n = 1 ∧
      path ∉ fs.roDirs ∧
      fs1 = (fs.mkdir path).writeFile (path ++ [fname]) bytes := by
  unfold retrieve at h
  split at h
  · simp at h
  · rename_i hro
    split at h
    · simp at h
    · simp at h
    · rename_i bytes hnet
      split at h
      · rename_i hhash
        rw [Prod.mk.injEq, Prod.mk.injEq] at h
        exact ⟨bytes, hnet, hhash, h.2.2.symm, hro, h.2.1.symm⟩
      · simp at h

theorem retrieve_none_shape_proc (hash : Bytes → String)
    (net : String → NetResult) (members : Bytes → List (String × Bytes))
    (url kh : String) (path : Path) (fname dext : String) (fs fs1 : FS)
    (n : Nat)
    (h : retrieve hash net members url kh path fname (some dext) fs =
      (none, fs1, n)) :
    ∃ bytes, net url = NetResult.ok bytes ∧ hash bytes = kh ∧ n = 1 ∧
      path ∉ fs.roDirs ∧
      fs1 = extractArchive members
        ((fs.mkdir path).writeFile (path ++ [fname]) bytes) bytes
        (path ++ [dext]) := by
  unfold retrieve at h
  split at h
  · simp at h
  · rename_i hro
    split at h
    · simp at h
    · simp at h
    · rename_i bytes hnet
      split at h
      · rename_i hhash
        rw [Prod.mk.injEq, Prod.mk.injEq] at h
        exact ⟨bytes, hnet, hhash, h.2.2.symm, hro, h.2.1.symm⟩
      · simp at h

theorem retrieve_some_files (hash : Bytes → String) (net : String → NetResult)
    (members : Bytes → List (String × Bytes)) (url kh : String) (path : Path)
    (fname : String) (proc : Option String) (fs : FS) (e : FetchError)
    (fs1 : FS) (n : Nat)
    (h : retrieve hash net members url kh path fname proc fs =
      (some e, fs1, n)) :
    fs1.files = fs.files ∧ n ≤ 1 ∧
      ∀ f : String, fs1.pathExists (path ++ [f]) =
        fs.pathExists (path ++ [f]) := by
  unfold retrieve at h
  split at h
  · rw [Prod.mk.injEq, Prod.mk.injEq] at h
    rw [← h.2.1]
    exact ⟨rfl, by omega, fun f => rfl⟩
  · split at h
    · rw [Prod.mk.injEq, Prod.mk.injEq] at h
      rw [← h.2.1]
      exact ⟨FS.files_mkdir fs path, by omega, fun f =>
        FS.pathExists_mkdir_ne fs path _ (append_singleton_ne path f)⟩
    · rw [Prod.mk.injEq, Prod.mk.injEq] at h
      rw [← h.2.1]
      exact ⟨FS.files_mkdir fs path, by omega, fun f =>
        FS.pathExists_mkdir_ne fs path _ (append_singleton_ne path f)⟩
    · split at h
      · split at h
        · simp at h
        · simp at h
      · rw [Prod.mk.injEq, Prod.mk.injEq] at h
        rw [← h.2.1]
        exact ⟨FS.files_mkdir fs path, by omega, fun f =>
          FS.pathExists_mkdir_ne fs path _ (append_singleton_ne path f)⟩

theorem download_data_fast (hash : Bytes → String) (net : String → NetResult)
    (members : Bytes → List (String × Bytes)) (fs : FS) (d : DataDescriptor)
    (u : Bool) (h : fs.pathExists (d.path ++ [d.fname]) = true) :
    download_data hash net members fs d u =
      { res := Except.ok (d.path ++ [d.fname]), fs := fs,
        log := ["Already found file: " ++
          String.intercalate "/" (d.path ++ [d.fname])],
        netCalls := 0 } := by
  simp [download_data, h]

theorem download_data_slow_ok (hash : Bytes → String)
    (net : String → NetResult) (members : Bytes → List (String × Bytes))
    (fs : FS) (d : DataDescriptor) (u : Bool) (fs1 : FS) (n : Nat)
    (hE : fs.pathExists (d.path ++ [d.fname]) = false)
    (hret : retrieve hash net members d.url d.known_hash d.path
      (if u then d.fname ++ ".zip" else d.fname)
      (if u then some d.fname else none) fs = (none, fs1, n)) :
    download_data hash net members fs d u =
      { res := Except.ok (d.path ++ [d.fname]), fs := fs1, log := [],
        netCalls := n } := by
  simp only [download_data, hE, Bool.false_eq_true, if_false]
  rw [hret]

theorem download_data_slow_err (hash : Bytes → String)
    (net : String → NetResult) (members : Bytes → List (String × Bytes))
    (fs : FS) (d : DataDescriptor) (u : Bool) (e : FetchError) (fs1 : FS)
    (n : Nat)
    (hE : fs.pathExists (d.path ++ [d.fname]) = false)
    (hret : retrieve hash net members d.url d.known_hash d.path
      (if u then d.fname ++ ".zip" else d.fname)
      (if u then some d.fname else none) fs = (some e, fs1, n)) :
    download_data hash net members fs d u =
      { res := Except.error e, fs := fs1, log := [], netCalls := n } := by
  simp only [download_data, hE, Bool.false_eq_true, if_false]
  rw [hret]

theorem download_data_ok_pathExists (hash : Bytes → String)
    (net : String → NetResult) (members : Bytes → List (String × Bytes))
    (fs : FS) (d : DataDescriptor) (u : Bool) (p : Path)
    (h : (download_data hash net members fs d u).res = Except.ok p) :
    p = d.path ++ [d.fname] ∧
      (download_data hash net members fs d u).fs.pathExists
        (d.path ++ [d.fname]) = true := by
  by_cases hE : fs.pathExists (d.path ++ [d.fname]) = true
  · rw [download_data_fast hash net members fs d u hE] at h ⊢
    simp only [Except.ok.injEq] at h
    exact ⟨h.symm, hE⟩
  · have hE2 : fs.pathExists (d.path ++ [d.fname]) = false := by
      simpa using hE
    rcases hret : retrieve hash net members d.url d.known_hash d.path
        (if u then d.fname ++ ".zip" else d.fname)
        (if u then some d.fname else none) fs with ⟨err, fs1, n⟩
    cases err with
    | some e =>
      rw [download_data_slow_err hash net members fs d u e fs1 n hE2 hret] at h
      simp at h
    | none =>
      rw [download_data_slow_ok hash net members fs d u fs1 n hE2 hret] at h ⊢
      simp only [Except.ok.injEq] at h
      refine ⟨h.symm, ?_⟩
      cases u with
      | false =>
        obtain ⟨bytes, hnet, hhash, hn, hro, hfs1⟩ :=
          retrieve_none_shape_noproc hash net members d.url d.known_hash
            d.path d.fname fs fs1 n hret
        rw [hfs1]
        exact FS.pathExists_writeFile_self _ _ _
      | true =>
        obtain ⟨bytes, hnet, hhash, hn, hro, hfs1⟩ :=
          retrieve_none_shape_proc hash net members d.url d.known_hash
            d.path (d.fname ++ ".zip") d.fname fs fs1 n hret
        rw [hfs1]
        exact extractArchive_pathExists_dest _ _ _ _

theorem FS.lookup_eq_of_files_eq (fs1 fs2 : FS) (p : Path)
    (h : fs1.files = fs2.files) : fs1.lookup p = fs2.lookup p := by
  unfold FS.lookup
  rw [h]

theorem retrieve_match_proc (hash : Bytes → String) (net : String → NetResult)
    (members : Bytes → List (String × Bytes)) (url kh : String) (path : Path)
    (fname dext : String) (fs : FS) (bytes : Bytes)
    (hro : path ∉ fs.roDirs) (hnet : net url = NetResult.ok bytes)
    (hhash : hash bytes = kh) :
    retrieve hash net members url kh path fname (some dext) fs =
      (none, extractArchive members
        ((fs.mkdir path).writeFile (path ++ [fname]) bytes) bytes
        (path ++ [dext]), 1) := by
  unfold retrieve
  rw [if_neg hro, hnet]
  simp [hhash]

/-- C1: Idempotence of ensure: when a call to download_data has succeeded
and returned the path p, a second call with the same descriptor on the
resulting filesystem succeeds with the same path p and performs zero
network accesses, whatever the network state on the second call (in
particular an unavailable network): the fast path takes the existing
file as sufficient. -/
theorem ensure_idempotent (hash : Bytes → String)
    (net net2 : String → NetResult)
    (members members2 : Bytes → List (String × Bytes)) (fs : FS)
    (d : DataDescriptor) (u : Bool) (p : Path)
    (h : (download_data hash net members fs d u).res = Except.ok p) :
    (download_data hash net2 members2
        (download_data hash net members fs d u).fs d u).res = Except.ok p ∧
      (download_data hash net2 members2
        (download_data hash net members fs d u).fs d u).netCalls = 0 := by
  obtain ⟨hp, hex⟩ := download_data_ok_pathExists hash net members fs d u p h
  rw [download_data_fast hash net2 members2 _ d u hex, hp]
  exact ⟨rfl, rfl⟩

theorem ensure_idempotent_witness :
    (download_data tHash tNetOk tMembers tFS tDesc false).res =
        Except.ok ["d", "f"] ∧
      ((download_data tHash tNetDown tMembers
          (download_data tHash tNetOk tMembers tFS tDesc false).fs tDesc
          false).res = Except.ok ["d", "f"] ∧
        (download_data tHash tNetDown tMembers
          (download_data tHash tNetOk tMembers tFS tDesc false).fs tDesc
          false).netCalls = 0) :=
  ⟨by decide, ensure_idempotent tHash tNetOk tNetDown tMembers tMembers tFS
    tDesc false ["d", "f"] (by decide)⟩

/-- C2: Integrity enforcement: when the candidate path does not yet exist,
the target directory is writable, and the digest of the bytes actually
served at the URL differs from the expected digest, download_data fails
with IntegrityError and afterwards no file or directory exists at the
candidate path. -/
theorem ensure_integrity (hash : Bytes → String) (net : String → NetResult)
    (members : Bytes → List (String × Bytes)) (fs : FS) (d : DataDescriptor)
    (u : Bool) (bytes : Bytes)
    (hE : fs.pathExists (d.path ++ [d.fname]) = false)
    (hro : d.path ∉ fs.roDirs)
    (hnet : net d.url = NetResult.ok bytes)
    (hhash : hash bytes ≠ d.known_hash) :
    (download_data hash net members fs d u).res =
        Except.error FetchError.IntegrityError ∧
      (download_data hash net members fs d u).fs.pathExists
        (d.path ++ [d.fname]) = false := by
  have hret := retrieve_mismatch hash net members d.url d.known_hash d.path
    (if u then d.fname ++ ".zip" else d.fname)
    (if u then some d.fname else none) fs bytes hro hnet hhash
  rw [download_data_slow_err hash net members fs d u _ _ _ hE hret]
  refine ⟨rfl, ?_⟩
  rw [FS.pathExists_mkdir_ne fs d.path (d.path ++ [d.fname])
    (append_singleton_ne d.path d.fname)]
  exact hE

theorem ensure_integrity_witness :
    (tFS.pathExists (["d"] ++ ["f"]) = false ∧ ["d"] ∉ tFS.roDirs ∧
      tNetOk tDescBad.url = NetResult.ok [7] ∧ tHash [7] ≠ tDescBad.known_hash) ∧
      ((download_data tHash tNetOk tMembers tFS tDescBad false).res =
          Except.error FetchError.IntegrityError ∧
        (download_data tHash tNetOk tMembers tFS tDescBad false).fs.pathExists
          (tDescBad.path ++ [tDescBad.fname]) = false) :=
  ⟨⟨by decide, by decide, by decide, by decide⟩,
    ensure_integrity tHash tNetOk tMembers tFS tDescBad false [7] (by decide)
      (by decide) (by decide) (by decide)⟩

/-- C3: Atomicity on failure: a failing call to download_data leaves the
candidate path exactly as it was before the call: the path did not exist
beforehand (otherwise the call would have succeeded through the fast
path), it does not exist afterwards, and the file content observable
there is unchanged; in particular no partial or corrupt file remains at
the candidate path. -/
theorem ensure_atomic_on_failure (hash : Bytes → String)
    (net : String → NetResult) (members : Bytes → List (String × Bytes))
    (fs : FS) (d : DataDescriptor) (u : Bool) (e : FetchError)
    (h : (download_data hash net members fs d u).res = Except.error e) :
    fs.pathExists (d.path ++ [d.fname]) = false ∧
      (download_data hash net members fs d u).fs.pathExists
        (d.path ++ [d.fname]) = false ∧
      (download_data hash net members fs d u).fs.lookup
        (d.path ++ [d.fname]) = fs.lookup (d.path ++ [d.fname]) := by
  by_cases hE : fs.pathExists (d.path ++ [d.fname]) = true
  · rw [download_data_fast hash net members fs d u hE] at h
    simp at h
  · have hE2 : fs.pathExists (d.path ++ [d.fname]) = false := by simpa using hE
    rcases hret : retrieve hash net members d.url d.known_hash d.path
        (if u then d.fname ++ ".zip" else d.fname)
        (if u then some d.fname else none) fs with ⟨err, fs1, n⟩
    cases err with
    | none =>
      rw [download_data_slow_ok hash net members fs d u fs1 n hE2 hret] at h
      simp at h
    | some e2 =>
      obtain ⟨hfiles, hn, hpres⟩ := retrieve_some_files hash net members
        d.url d.known_hash d.path _ _ fs e2 fs1 n hret
      rw [download_data_slow_err hash net members fs d u e2 fs1 n hE2 hret]
      exact ⟨hE2, (hpres d.fname).trans hE2,
        FS.lookup_eq_of_files_eq _ _ _ hfiles⟩

theorem ensure_atomic_on_failure_witness :
    (download_data tHash tNetDown tMembers tFS tDesc false).res =
        Except.error FetchError.NetworkError ∧
      (tFS.pathExists (tDesc.path ++ [tDesc.fname]) = false ∧
        (download_data tHash tNetDown tMembers tFS tDesc false).fs.pathExists
          (tDesc.path ++ [tDesc.fname]) = false ∧
        (download_data tHash tNetDown tMembers tFS tDesc false).fs.lookup
          (tDesc.path ++ [tDesc.fname]) =
          tFS.lookup (tDesc.path ++ [tDesc.fname])) :=
  ⟨by decide, ensure_atomic_on_failure tHash tNetDown tMembers tFS tDesc
    false FetchError.NetworkError (by decide)⟩

/-- C4: Return-value shape: every successful call to download_data
returns the candidate path directory/filename; moreover, when the
candidate path was absent, with needs_unzip set the returned path is a
directory named fname under the target directory (the expanded archive),
and with needs_unzip unset it is the downloaded file itself. -/
theorem ensure_return_shape (hash : Bytes → String)
    (net : String → NetResult) (members : Bytes → List (String × Bytes))
    (fs : FS) (d : DataDescriptor) (u : Bool) (p : Path)
    (h : (download_data hash net members fs d u).res = Except.ok p) :
    p = d.path ++ [d.fname] ∧
      (fs.pathExists (d.path ++ [d.fname]) = false →
        (u = true → p ∈ (download_data hash net members fs d u).fs.dirs) ∧
        (u = false → ∃ b,
          (download_data hash net members fs d u).fs.lookup p = some b)) := by
  obtain ⟨hp, _⟩ := download_data_ok_pathExists hash net members fs d u p h
  refine ⟨hp, fun hE2 => ?_⟩
  rcases hret : retrieve hash net members d.url d.known_hash d.path
      (if u then d.fname ++ ".zip" else d.fname)
      (if u then some d.fname else none) fs with ⟨err, fs1, n⟩
  cases err with
  | some e =>
    rw [download_data_slow_err hash net members fs d u e fs1 n hE2 hret] at h
    simp at h
  | none =>
    rw [download_data_slow_ok hash net members fs d u fs1 n hE2 hret]
    constructor
    · intro hu
      subst hu
      obtain ⟨bytes, hnet, hhash, hn, hro, hfs1⟩ :=
        retrieve_none_shape_proc hash net members d.url d.known_hash d.path
          (d.fname ++ ".zip") d.fname fs fs1 n hret
      rw [hfs1, hp]
      exact extractArchive_mem_dirs_dest _ _ _ _
    · intro hu
      subst hu
      obtain ⟨bytes, hnet, hhash, hn, hro, hfs1⟩ :=
        retrieve_none_shape_noproc hash net members d.url d.known_hash d.path
          d.fname fs fs1 n hret
      rw [hfs1, hp]
      exact ⟨bytes, FS.lookup_writeFile_self _ _ _⟩

theorem ensure_return_shape_witness :
    (download_data tHash tNetOk tMembers tFS tDesc false).res =
        Except.ok ["d", "f"] ∧
      (["d", "f"] = tDesc.path ++ [tDesc.fname] ∧
        (tFS.pathExists (tDesc.path ++ [tDesc.fname]) = false →
          (false = true →
            ["d", "f"] ∈ (download_data tHash tNetOk tMembers tFS tDesc
              false).fs.dirs) ∧
          (false = false → ∃ b,
            (download_data tHash tNetOk tMembers tFS tDesc false).fs.lookup
              ["d", "f"] = some b))) :=
  ⟨by decide, ensure_return_shape tHash tNetOk tMembers tFS tDesc false
    ["d", "f"] (by decide)⟩

/-- C5: Fast path skips verification: whenever a file or directory is
already present at the candidate path, download_data returns that path
with zero network accesses and with the filesystem unchanged, for every
digest function and every content of the existing entry: the existing
content, however stale or corrupt, is returned as is and never
re-verified. -/
theorem ensure_fast_path (hash : Bytes → String) (net : String → NetResult)
    (members : Bytes → List (String × Bytes)) (fs : FS) (d : DataDescriptor)
    (u : Bool) (h : fs.pathExists (d.path ++ [d.fname]) = true) :
    (download_data hash net members fs d u).res =
        Except.ok (d.path ++ [d.fname]) ∧
      (download_data hash net members fs d u).netCalls = 0 ∧
      (download_data hash net members fs d u).fs = fs := by
  rw [download_data_fast hash net members fs d u h]
  exact ⟨rfl, rfl, rfl⟩

theorem ensure_fast_path_witness :
    tFSPre.pathExists (tDesc.path ++ [tDesc.fname]) = true ∧
      ((download_data tHash tNetDown tMembers tFSPre tDesc false).res =
          Except.ok (tDesc.path ++ [tDesc.fname]) ∧
        (download_data tHash tNetDown tMembers tFSPre tDesc false).netCalls =
          0 ∧
        (download_data tHash tNetDown tMembers tFSPre tDesc false).fs =
          tFSPre) :=
  ⟨by decide, ensure_fast_path tHash tNetDown tMembers tFSPre tDesc false
    (by decide)⟩

/-- C6 counterexample: the claim that after any successful call the digest
of the file at the returned path equals expectedDigest fails on the fast
path: with a stale file of contents [9] already at the candidate path of
tDesc, the call succeeds and returns that path, yet the digest of the
content found there differs from the expected digest. -/
theorem ensure_roundtrip_cex :
    (download_data tHash tNetOk tMembers tFSPre tDesc false).res =
        Except.ok ["d", "f"] ∧
      (download_data tHash tNetOk tMembers tFSPre tDesc false).fs.lookup
        ["d", "f"] = some [9] ∧
      tHash [9] ≠ tDesc.known_hash := by decide

/-- C6 amended: after a successful call to download_data in which the
candidate path did not exist beforehand and needs_unzip is not set, the
digest of the file at the returned path equals the expected digest of the
descriptor. -/
theorem ensure_roundtrip_amended (hash : Bytes → String)
    (net : String → NetResult) (members : Bytes → List (String × Bytes))
    (fs : FS) (d : DataDescriptor) (p : Path)
    (hE : fs.pathExists (d.path ++ [d.fname]) = false)
    (h : (download_data hash net members fs d false).res = Except.ok p) :
    ∃ b, (download_data hash net members fs d false).fs.lookup p = some b ∧
      hash b = d.known_hash := by
  rcases hret : retrieve hash net members d.url d.known_hash d.path d.fname
      none fs with ⟨err, fs1, n⟩
  cases err with
  | some e =>
    rw [download_data_slow_err hash net members fs d false e fs1 n hE
      hret] at h
    simp at h
  | none =>
    rw [download_data_slow_ok hash net members fs d false fs1 n hE hret]
      at h ⊢
    simp only [Except.ok.injEq] at h
    obtain ⟨bytes, hnet, hhash, hn, hro, hfs1⟩ :=
      retrieve_none_shape_noproc hash net members d.url d.known_hash d.path
        d.fname fs fs1 n hret
    rw [hfs1, ← h]
    exact ⟨bytes, FS.lookup_writeFile_self _ _ _, hhash⟩

theorem ensure_roundtrip_amended_witness :
    (tFS.pathExists (tDesc.path ++ [tDesc.fname]) = false ∧
      (download_data tHash tNetOk tMembers tFS tDesc false).res =
        Except.ok ["d", "f"]) ∧
      ∃ b, (download_data tHash tNetOk tMembers tFS tDesc false).fs.lookup
          ["d", "f"] = some b ∧ tHash b = tDesc.known_hash :=
  ⟨⟨by decide, by decide⟩, ensure_roundtrip_amended tHash tNetOk tMembers
    tFS tDesc ["d", "f"] (by decide) (by decide)⟩

/-- C7: Error propagation: when the candidate path is absent and the
delegated fetch fails with any of NetworkError, IntegrityError or
FilesystemError, download_data surfaces exactly that error to the caller
as the result of the whole call, with no retry (at most one network
access is ever performed) and no partial success. -/
theorem ensure_error_propagation (hash : Bytes → String)
    (net : String → NetResult) (members : Bytes → List (String × Bytes))
    (fs : FS) (d : DataDescriptor) (u : Bool) (e : FetchError) (fs1 : FS)
    (n : Nat)
    (hE : fs.pathExists (d.path ++ [d.fname]) = false)
    (hret : retrieve hash net members d.url d.known_hash d.path
      (if u then d.fname ++ ".zip" else d.fname)
      (if u then some d.fname else none) fs = (some e, fs1, n)) :
    (download_data hash net members fs d u).res = Except.error e ∧
      (download_data hash net members fs d u).netCalls = n ∧ n ≤ 1 := by
  obtain ⟨_, hn, _⟩ := retrieve_some_files hash net members d.url
    d.known_hash d.path _ _ fs e fs1 n hret
  rw [download_data_slow_err hash net members fs d u e fs1 n hE hret]
  exact ⟨rfl, rfl, hn⟩

theorem ensure_error_propagation_witness :
    (tFS.pathExists (tDesc.path ++ [tDesc.fname]) = false ∧
      retrieve tHash tNetDown tMembers tDesc.url tDesc.known_hash tDesc.path
        (if false then tDesc.fname ++ ".zip" else tDesc.fname)
        (if false then some tDesc.fname else none) tFS =
        (some FetchError.NetworkError, ⟨[], [["d"]], []⟩, 1)) ∧
      ((download_data tHash tNetDown tMembers tFS tDesc false).res =
          Except.error FetchError.NetworkError ∧
        (download_data tHash tNetDown tMembers tFS tDesc false).netCalls =
          1 ∧ 1 ≤ 1) :=
  ⟨⟨by decide, by decide⟩, ensure_error_propagation tHash tNetDown tMembers
    tFS tDesc false FetchError.NetworkError ⟨[], [["d"]], []⟩ 1 (by decide)
    (by decide)⟩

/-- C8: Implicit default resource: the data argument of download_data
defaults to the built-in descriptor data_nc and needs_unzip defaults to
false, so calling download_data with no descriptor behaves exactly as
calling it on data_nc with unpack disabled; and data_nc is the fixed
record with directory data, the fixed netCDF file name, the Google Drive
source URL and the fixed sha256 expected hash. -/
theorem download_data_default_args :
    (∀ (hash : Bytes → String) (net : String → NetResult)
        (members : Bytes → List (String × Bytes)) (fs : FS),
      download_data hash net members fs =
        download_data hash net members fs data_nc false) ∧
      data_nc = ⟨["data"], "SwA_20140501-20190501_proc1_shrunk.nc",
        "https://drive.google.com/uc?export=download&confirm=no_antivirus&id=1CQ6JVxx_R6tSGNbflTsPSFuxBZer0zkt",
        "b8c805678031910a404a6ebab8d42ffc3179c1985d9c777be75158134c1e779f"⟩ :=
  ⟨fun _ _ _ _ => rfl, rfl⟩

/-- C9: Unpack layout: an unpacking call on an absent candidate path
(writable directory, bytes served and digest matching) stores the fetched
archive under fname.zip inside the target directory and expands it into
the directory fname, so the archive file and the expanded directory
coexist afterwards; and a subsequent call inspects only directory/fname:
even after the stored archive is deleted and with the network gone, it
still succeeds through the fast path with zero network accesses. -/
theorem ensure_unpack_layout (hash hash2 : Bytes → String)
    (net net2 : String → NetResult)
    (members members2 : Bytes → List (String × Bytes)) (fs : FS)
    (d : DataDescriptor) (bytes : Bytes)
    (hE : fs.pathExists (d.path ++ [d.fname]) = false)
    (hro : d.path ∉ fs.roDirs)
    (hnet : net d.url = NetResult.ok bytes)
    (hhash : hash bytes = d.known_hash) :
    (download_data hash net members fs d true).res =
        Except.ok (d.path ++ [d.fname]) ∧
      (download_data hash net members fs d true).fs.lookup
        (d.path ++ [d.fname ++ ".zip"]) = some bytes ∧
      (d.path ++ [d.fname]) ∈
        (download_data hash net members fs d true).fs.dirs ∧
      (download_data hash2 net2 members2
          ((download_data hash net members fs d true).fs.deleteFile
            (d.path ++ [d.fname ++ ".zip"])) d true).res =
        Except.ok (d.path ++ [d.fname]) ∧
      (download_data hash2 net2 members2
          ((download_data hash net members fs d true).fs.deleteFile
            (d.path ++ [d.fname ++ ".zip"])) d true).netCalls = 0 := by
  have hret := retrieve_match_proc hash net members d.url d.known_hash
    d.path (d.fname ++ ".zip") d.fname fs bytes hro hnet hhash
  have hres := download_data_slow_ok hash net members fs d true _ _ hE hret
  rw [hres]
  have harch : (extractArchive members
      ((fs.mkdir d.path).writeFile (d.path ++ [d.fname ++ ".zip"]) bytes)
      bytes (d.path ++ [d.fname])).lookup (d.path ++ [d.fname ++ ".zip"]) =
      some bytes := by
    unfold extractArchive
    rw [lookup_foldl_writeFile_ne _ _ _ _
      (fun m _ => append_two_singleton_ne d.path d.fname m.1
        (d.fname ++ ".zip"))]
    rw [FS.lookup_mkdir, FS.lookup_writeFile_self]
  have hdest : (d.path ++ [d.fname]) ∈ (extractArchive members
      ((fs.mkdir d.path).writeFile (d.path ++ [d.fname ++ ".zip"]) bytes)
      bytes (d.path ++ [d.fname])).dirs :=
    extractArchive_mem_dirs_dest _ _ _ _
  have hex2 : ((extractArchive members
      ((fs.mkdir d.path).writeFile (d.path ++ [d.fname ++ ".zip"]) bytes)
      bytes (d.path ++ [d.fname])).deleteFile
        (d.path ++ [d.fname ++ ".zip"])).pathExists (d.path ++ [d.fname]) =
      true := by
    apply FS.pathExists_of_mem_dirs
    rw [FS.dirs_deleteFile]
    exact hdest
  rw [download_data_fast hash2 net2 members2 _ d true hex2]
  exact ⟨rfl, harch, hdest, rfl, rfl⟩

theorem ensure_unpack_layout_witness :
    (tFS.pathExists (tDesc.path ++ [tDesc.fname]) = false ∧
      ["d"] ∉ tFS.roDirs ∧ tNetOk tDesc.url = NetResult.ok [7] ∧
      tHash [7] = tDesc.known_hash) ∧
      ((download_data tHash tNetOk tMembers tFS tDesc true).res =
          Except.ok (tDesc.path ++ [tDesc.fname]) ∧
        (download_data tHash tNetOk tMembers tFS tDesc true).fs.lookup
          (tDesc.path ++ [tDesc.fname ++ ".zip"]) = some [7] ∧
        (tDesc.path ++ [tDesc.fname]) ∈
          (download_data tHash tNetOk tMembers tFS tDesc true).fs.dirs ∧
        (download_data tHash tNetDown tMembers
            ((download_data tHash tNetOk tMembers tFS tDesc true).fs.deleteFile
              (tDesc.path ++ [tDesc.fname ++ ".zip"])) tDesc true).res =
          Except.ok (tDesc.path ++ [tDesc.fname]) ∧
        (download_data tHash tNetDown tMembers
            ((download_data tHash tNetOk tMembers tFS tDesc true).fs.deleteFile
              (tDesc.path ++ [tDesc.fname ++ ".zip"])) tDesc
            true).netCalls = 0) :=
  ⟨⟨by decide, by decide, by decide, by decide⟩,
    ensure_unpack_layout tHash tHash tNetOk tNetDown tMembers tMembers tFS
      tDesc [7] (by decide) (by decide) (by decide) (by decide)⟩

/-- C10: Fast-path frame property: when the candidate path already
exists, download_data changes nothing on local storage (the whole
filesystem state after the call equals the state before: no file or
directory is created, modified or deleted), performs no network access,
and its only observable side effect is the single informational message
printed before returning the existing path. -/
theorem ensure_fast_path_frame (hash : Bytes → String)
    (net : String → NetResult) (members : Bytes → List (String × Bytes))
    (fs : FS) (d : DataDescriptor) (u : Bool)
    (h : fs.pathExists (d.path ++ [d.fname]) = true) :
    download_data hash net members fs d u =
      { res := Except.ok (d.path ++ [d.fname]), fs := fs,
        log := ["Already found file: " ++
          String.intercalate "/" (d.path ++ [d.fname])],
        netCalls := 0 } :=
  download_data_fast hash net members fs d u h

theorem ensure_fast_path_frame_witness :
    (FS.mk [] [["d", "f"]] []).pathExists (tDesc.path ++ [tDesc.fname]) =
        true ∧
      download_data tHash tNetDown tMembers (FS.mk [] [["d", "f"]] []) tDesc
          true =
        { res := Except.ok (tDesc.path ++ [tDesc.fname]),
          fs := FS.mk [] [["d", "f"]] [],
          log := ["Already found file: " ++
            String.intercalate "/" (tDesc.path ++ [tDesc.fname])],
          netCalls := 0 } :=
  ⟨by decide, ensure_fast_path_frame tHash tNetDown tMembers
    (FS.mk [] [["d", "f"]] []) tDesc true (by decide)⟩

end GeomagDatacube
